import Mathlib

/-!
Shallow embedding of the `external-dns-porkbun-webhook` provider
(`provider/porkbun.go`; the second provider copy differs only in logging).
Registrar calls are modelled by a call trace (`List ApiCall`) together with an
optional error message; the registrar itself is an oracle (`Client`) deciding
the outcome of each call.  Go strings are modelled at the character level.
-/

namespace Porkbun

/-- The double-quote character, written via its code point. -/
def dquote : Char := Char.ofNat 34

/-- Go `strings.HasSuffix s suffix`. -/
def goHasSuffix (s suffix : String) : Bool := decide (suffix.data <:+ s.data)

/-- Go `strings.HasPrefix s pre`. -/
def goStartsWith (s pre : String) : Bool := decide (pre.data <+: s.data)

/-- Go `strings.TrimSuffix s suffix`: drop the suffix when present, else return `s`. -/
def goTrimSuffix (s suffix : String) : String :=
  if goHasSuffix s suffix then ⟨s.data.take (s.data.length - suffix.data.length)⟩ else s

/-- Go `strings.Trim s cutset` for a one-character cutset: remove every leading
and trailing occurrence of `c`. -/
def goTrimChar (s : String) (c : Char) : String :=
  ⟨((s.data.dropWhile (· == c)).reverse.dropWhile (· == c)).reverse⟩

/-- Go `strings.Split(s, ".")[0]`: the part of `s` before the first dot. -/
def goFirstLabel (s : String) : String := ⟨s.data.takeWhile (· != '.')⟩

/-- Value of a non-empty all-digit character list, `none` otherwise. -/
def digitsVal (l : List Char) : Option Nat :=
  if l.isEmpty then none
  else if l.all Char.isDigit then some (l.foldl (fun n c => n * 10 + (c.toNat - 48)) 0)
  else none

/-- Go `strconv.Atoi`: optional sign followed by at least one digit
(overflow is not modelled; record IDs and TTLs are small). -/
def goAtoi (s : String) : Option Int :=
  match s.data with
  | [] => none
  | c :: rest =>
    if c == '+' then (digitsVal rest).map Int.ofNat
    else if c == '-' then (digitsVal rest).map (fun n => -(n : Int))
    else (digitsVal (c :: rest)).map Int.ofNat

/-- Registrar DNS record `pb.Record` (`ID`, `Name`, `Type`, `Content`, `TTL`
are the fields the provider reads or writes). -/
structure Record where
  ID : String
  Name : String
  «Type» : String
  Content : String
  TTL : String
deriving DecidableEq, Repr

/-- Orchestrator endpoint `endpoint.Endpoint`: the generic DNS record. -/
structure Endpoint where
  DNSName : String
  RecordType : String
  Targets : List String
  RecordTTL : Int
deriving DecidableEq, Repr

/-- ChangeBatch `plan.Changes`: the four lists of a reconciliation cycle. -/
structure Changes where
  Create : List Endpoint := []
  UpdateOld : List Endpoint := []
  UpdateNew : List Endpoint := []
  Delete : List Endpoint := []
deriving DecidableEq, Repr

/-- Library predicate `plan.Changes.HasChanges` of external-dns: true when Create or
Delete is non-empty, or the two update lists differ. -/
def hasChanges (c : Changes) : Bool :=
  if c.Create.length > 0 || c.Delete.length > 0 then true
  else decide (¬ c.UpdateNew = c.UpdateOld)

/-- One registrar API call, as recorded in a trace. -/
inductive ApiCall where
  | ping : ApiCall
  | retrieveRecords (zone : String) : ApiCall
  | createRecord (zone : String) (rec : Record) : ApiCall
  | editRecord (zone : String) (id : Int) (rec : Record) : ApiCall
  | deleteRecord (zone : String) (id : Int) : ApiCall
deriving DecidableEq, Repr

/-- The registrar oracle: decides the outcome of each API call.
`retrieve zone = none` models a failed `RetrieveRecords` call. -/
structure Client where
  pingOk : Bool
  retrieve : String → Option (List Record)
  createOk : String → Record → Bool
  editOk : String → Int → Record → Bool
  deleteOk : String → Int → Bool

/-- The provider state relevant to the claims: configured zone filters and the
dry-run flag. -/
structure Provider where
  filters : List String
  dryRun : Bool

/-- ID resolver `getIDforRecord`: first record in the snapshot whose (type, content, name)
triple equals the query exactly; empty string when none matches. -/
def getIDforRecord (recordName target recordType : String) (recs : List Record) : String :=
  match recs with
  | [] => ""
  | rec :: rest =>
    if recordType == rec.«Type» && target == rec.Content && rec.Name == recordName then rec.ID
    else getIDforRecord recordName target recordType rest

/-- Zone router `endpointZoneName`: longest configured zone that is a string suffix of the
endpoint's DNS name; empty string when none matches. -/
def endpointZoneName (ep : Endpoint) (zones : List String) : String :=
  zones.foldl
    (fun matchZoneName zoneName =>
      if goHasSuffix ep.DNSName zoneName && zoneName.length > matchZoneName.length
      then zoneName else matchZoneName)
    ""

/-- Record translator `convertToPorkbunRecord`: translate endpoints to registrar records relative
to `zoneName`, resolving IDs against the snapshot `recs`.  The `DeleteRecord`
flag is accepted but unused, as in the source. -/
def convertToPorkbunRecord (recs : List Record) (endpoints : List Endpoint)
    (zoneName : String) (DeleteRecord : Bool) : List Record :=
  endpoints.map fun ep =>
    let recordName0 := goTrimSuffix ep.DNSName ("." ++ zoneName)
    let recordName := if recordName0 == zoneName then "@" else recordName0
    let target0 := ep.Targets.headI
    let target :=
      if ep.RecordType == "TXT" && goStartsWith target0 "\"heritage=" then
        goTrimChar ep.Targets.headI dquote
      else target0
    { «Type» := ep.RecordType, Name := recordName, Content := target,
      ID := getIDforRecord recordName target ep.RecordType recs, TTL := "" }

/-- Bulk create `CreateDnsRecords`: one create call per record in order; abort on the first
rejected call. -/
def CreateDnsRecords (cl : Client) (zone : String) (records : List Record) :
    List ApiCall × Option String :=
  match records with
  | [] => ([], none)
  | r :: rest =>
    if cl.createOk zone r then
      let p := CreateDnsRecords cl zone rest
      (ApiCall.createRecord zone r :: p.1, p.2)
    else ([ApiCall.createRecord zone r], some "unable to create record")

/-- Bulk delete `DeleteDnsRecords`: parse each record's ID, then issue a delete call; abort
on parse failure (before any call for that record) or on a rejected call. -/
def DeleteDnsRecords (cl : Client) (zone : String) (records : List Record) :
    List ApiCall × Option String :=
  match records with
  | [] => ([], none)
  | r :: rest =>
    match goAtoi r.ID with
    | none => ([], some "unable to parse record ID")
    | some id =>
      if cl.deleteOk zone id then
        let p := DeleteDnsRecords cl zone rest
        (ApiCall.deleteRecord zone id :: p.1, p.2)
      else ([ApiCall.deleteRecord zone id], some "unable to delete record")

/-- Bulk update `UpdateDnsRecords`: parse each record's ID, then issue an edit call; abort
on parse failure (before any call for that record) or on a rejected call. -/
def UpdateDnsRecords (cl : Client) (zone : String) (records : List Record) :
    List ApiCall × Option String :=
  match records with
  | [] => ([], none)
  | r :: rest =>
    match goAtoi r.ID with
    | none => ([], some "unable to parse record ID")
    | some id =>
      if cl.editOk zone id r then
        let p := UpdateDnsRecords cl zone rest
        (ApiCall.editRecord zone id r :: p.1, p.2)
      else ([ApiCall.editRecord zone id r], some "unable to update record")

/-- The ZoneChangeBatch of `zoneName`: endpoints of the global batch routed to
that zone by `endpointZoneName`, in input order; endpoints matching no zone are
dropped.  This mirrors the per-zone map built by appending in `ApplyChanges`. -/
def zoneChanges (changes : Changes) (zones : List String) (zoneName : String) : Changes :=
  let keep := fun ep => zoneName != "" && endpointZoneName ep zones == zoneName
  { Create := changes.Create.filter keep
    UpdateOld := changes.UpdateOld.filter keep
    UpdateNew := changes.UpdateNew.filter keep
    Delete := changes.Delete.filter keep }

/-- Sequential composition of two traced steps: when the first step errors its
trace and error are returned and the second step never runs; otherwise the
traces are concatenated and the second step's outcome is returned.  This is
the `if err != nil { return err }` pattern of the Go code. -/
def seqStep (a b : List ApiCall × Option String) : List ApiCall × Option String :=
  match a.2 with
  | some e => (a.1, some e)
  | none => (a.1 ++ b.1, b.2)

/-- The mutation phase of one zone in `ApplyChanges`: translate the four lists
against snapshot `recs`, then apply UpdateOld, Delete, Create, UpdateNew in
that order, aborting on the first error. -/
def applyZoneBody (cl : Client) (zoneName : String) (recs : List Record) (c : Changes) :
    List ApiCall × Option String :=
  let updOld := convertToPorkbunRecord recs c.UpdateOld zoneName true
  let del := convertToPorkbunRecord recs c.Delete zoneName true
  let cre := convertToPorkbunRecord recs c.Create zoneName false
  let updNew := convertToPorkbunRecord recs c.UpdateNew zoneName false
  seqStep (UpdateDnsRecords cl zoneName updOld)
    (seqStep (DeleteDnsRecords cl zoneName del)
      (seqStep (CreateDnsRecords cl zoneName cre)
        (UpdateDnsRecords cl zoneName updNew)))

/-- One iteration of the per-zone loop: fetch the snapshot (a failed fetch is
logged and leaves an empty snapshot), then run the mutation phase. -/
def applyZone (cl : Client) (zoneName : String) (c : Changes) :
    List ApiCall × Option String :=
  let recs := (cl.retrieve zoneName).getD []
  let p := applyZoneBody cl zoneName recs (c)
  (ApiCall.retrieveRecords zoneName :: p.1, p.2)

/-- The per-zone loop of `ApplyChanges` over the zone keys, aborting the cycle
on the first zone error. -/
def applyZones (cl : Client) (zones : List String) (changes : Changes)
    (allZones : List String) : List ApiCall × Option String :=
  match zones with
  | [] => ([], none)
  | z :: rest =>
    seqStep (applyZone cl z (zoneChanges changes allZones z))
      (applyZones cl rest changes allZones)

/-- Apply path `ApplyChanges`: no-op fast path, dry-run short-circuit (before and after
partitioning), login ping, then the per-zone loop. -/
def ApplyChanges (p : Provider) (cl : Client) (changes : Changes) :
    List ApiCall × Option String :=
  if hasChanges changes = false then ([], none)
  else if p.dryRun then ([], none)
  else if cl.pingOk = false then ([ApiCall.ping], some "ping failed")
  else
    let q := applyZones cl p.filters changes p.filters
    (ApiCall.ping :: q.1, q.2)

/-- The endpoint list built from one zone's records in `Records`: apex names
(`@` first label) are replaced by the domain; a TTL parse failure aborts. -/
def convertZoneRecords (domain : String) (recs : List Record) : Option (List Endpoint) :=
  match recs with
  | [] => some []
  | rec :: rest =>
    let name := if goFirstLabel rec.Name == "@" then domain else rec.Name
    match goAtoi rec.TTL with
    | none => none
    | some ttl =>
      (convertZoneRecords domain rest).map
        (fun eps => { DNSName := name, RecordType := rec.«Type»,
                      Targets := [rec.Content], RecordTTL := ttl } :: eps)

/-- The per-domain loop of `Records`: fetch each zone's records and convert
them; a fetch or TTL-parse failure aborts the whole listing. -/
def recordsLoop (cl : Client) (domains : List String) :
    List ApiCall × Option (List Endpoint) :=
  match domains with
  | [] => ([], some [])
  | d :: rest =>
    match cl.retrieve d with
    | none => ([ApiCall.retrieveRecords d], none)
    | some recs =>
      match convertZoneRecords d recs with
      | none => ([ApiCall.retrieveRecords d], none)
      | some eps =>
        let q := recordsLoop cl rest
        (ApiCall.retrieveRecords d :: q.1, (q.2).map (fun more => eps ++ more))

/-- Listing path `Records`: dry-run returns an empty list with no calls; otherwise ping and
list every configured domain. -/
def Records (p : Provider) (cl : Client) : List ApiCall × Option (List Endpoint) :=
  if p.dryRun then ([], some [])
  else if cl.pingOk = false then ([ApiCall.ping], none)
  else
    let q := recordsLoop cl p.filters
    (ApiCall.ping :: q.1, q.2)

end Porkbun

namespace Porkbun

/-- Does the call edit a record? -/
def isEditCall : ApiCall → Bool
  | .editRecord _ _ _ => true
  | _ => false

/-- Does the call delete a record? -/
def isDeleteCall : ApiCall → Bool
  | .deleteRecord _ _ => true
  | _ => false

/-- Does the call create a record? -/
def isCreateCall : ApiCall → Bool
  | .createRecord _ _ => true
  | _ => false

/-- Does the call fetch a zone snapshot? -/
def isRetrieveCall : ApiCall → Bool
  | .retrieveRecords _ => true
  | _ => false

/-- Is the call a mutation (create, edit or delete) addressed to zone `z`? -/
def isMutationOfZone (z : String) : ApiCall → Bool
  | .createRecord zo _ => zo == z
  | .editRecord zo _ _ => zo == z
  | .deleteRecord zo _ => zo == z
  | _ => false

/-- A registrar that accepts every call and holds no records. -/
def okClient : Client :=
  ⟨true, fun _ => some [], fun _ _ => true, fun _ _ _ => true, fun _ _ => true⟩

/-- A provider managing zones `a.com` and `b.com`, not in dry-run mode. -/
def provAB : Provider := ⟨["a.com", "b.com"], false⟩

/-- An endpoint inside zone `a.com`. -/
def epA : Endpoint := ⟨"x.a.com", "A", ["1.2.3.4"], 300⟩

/-- A second endpoint inside zone `a.com`. -/
def epDel : Endpoint := ⟨"y.a.com", "A", ["5.6.7.8"], 300⟩

/-- A batch creating one record in zone `a.com`. -/
def chCreate : Changes := { Create := [epA] }

/-- A batch deleting one record of zone `a.com`. -/
def chDelete : Changes := { Delete := [epDel] }

/-- C9: a ChangeBatch whose four lists are all empty makes the apply operation
return success immediately with zero registrar calls (no ping, no snapshot
fetch, no mutation): the trace is empty and no error is reported. -/
theorem empty_batch_noop (p : Provider) (cl : Client) (changes : Changes)
    (h1 : changes.Create = []) (h2 : changes.Delete = [])
    (h3 : changes.UpdateOld = []) (h4 : changes.UpdateNew = []) :
    ApplyChanges p cl changes = ([], none) := by
  have hc : hasChanges changes = false := by simp [hasChanges, h1, h2, h3, h4]
  simp [ApplyChanges, hc]

/-- Witness for `empty_batch_noop` at the empty batch. -/
theorem empty_batch_noop_witness :
    ApplyChanges provAB okClient {} = ([], none) :=
  empty_batch_noop provAB okClient {} rfl rfl rfl rfl

/-- C8: in dry-run mode no registrar call is made by either public operation:
the apply path returns success with an empty trace for every batch (so not
even the authentication ping happens), and the listing path returns an empty
endpoint sequence with an empty trace. -/
theorem dry_run_no_registrar_calls (p : Provider) (cl : Client) (changes : Changes)
    (h : p.dryRun = true) :
    ApplyChanges p cl changes = ([], none) ∧ Records p cl = ([], some []) := by
  refine ⟨?_, ?_⟩
  · simp [ApplyChanges, h]
  · simp [Records, h]

/-- Witness for `dry_run_no_registrar_calls` on a non-empty batch. -/
theorem dry_run_no_registrar_calls_witness :
    ApplyChanges ⟨["a.com", "b.com"], true⟩ okClient chCreate = ([], none) ∧
    Records ⟨["a.com", "b.com"], true⟩ okClient = ([], some []) :=
  dry_run_no_registrar_calls ⟨["a.com", "b.com"], true⟩ okClient chCreate rfl

/-- C3: the ID resolver returns the ID of the first record of the snapshot
whose type, content and name are all exactly equal to the query (and that ID
occurs in the snapshot), and returns the empty string when no record
matches. -/
theorem id_resolver_first_exact_match (recordName target recordType : String)
    (recs : List Record) :
    (getIDforRecord recordName target recordType recs = "" ∧
      ∀ r ∈ recs, ¬(r.«Type» = recordType ∧ r.Content = target ∧ r.Name = recordName)) ∨
    (∃ pre r post, recs = pre ++ r :: post ∧
      r.«Type» = recordType ∧ r.Content = target ∧ r.Name = recordName ∧
      (∀ q ∈ pre, ¬(q.«Type» = recordType ∧ q.Content = target ∧ q.Name = recordName)) ∧
      getIDforRecord recordName target recordType recs = r.ID ∧
      r.ID ∈ recs.map Record.ID) := by
  induction recs with
  | nil => exact Or.inl ⟨rfl, by simp⟩
  | cons a rest ih =>
    by_cases hm : (recordType == a.«Type» && target == a.Content && a.Name == recordName) = true
    · simp only [Bool.and_eq_true, beq_iff_eq] at hm
      obtain ⟨⟨h1, h2⟩, h3⟩ := hm
      refine Or.inr ⟨[], a, rest, by simp, h1.symm, h2.symm, h3, by simp, ?_, by simp⟩
      simp [getIDforRecord, h1, h2, h3]
    · have hnot : ¬(a.«Type» = recordType ∧ a.Content = target ∧ a.Name = recordName) := by
        rintro ⟨h1, h2, h3⟩
        exact hm (by simp [h1, h2, h3])
      have hstep : getIDforRecord recordName target recordType (a :: rest) =
          getIDforRecord recordName target recordType rest := by
        simp only [getIDforRecord, if_neg hm]
      rcases ih with ⟨he, hall⟩ | ⟨pre, r, post, heq, t1, t2, t3, hpre, hres, hmem⟩
      · refine Or.inl ⟨hstep.trans he, ?_⟩
        intro r hr
        rcases List.mem_cons.mp hr with h | h
        · exact h ▸ hnot
        · exact hall r h
      · refine Or.inr ⟨a :: pre, r, post, by rw [heq, List.cons_append], t1, t2, t3, ?_,
          hstep.trans hres, ?_⟩
        · intro q hq
          rcases List.mem_cons.mp hq with h | h
          · exact h ▸ hnot
          · exact hpre q h
        · exact List.mem_map.mpr ⟨r, by simp [heq], rfl⟩

/-- Witness for `id_resolver_first_exact_match` on a two-record snapshot. -/
theorem id_resolver_first_exact_match_witness :
    (getIDforRecord "foo" "1.2.3.4" "A"
        [⟨"7", "bar", "A", "1.2.3.4", "600"⟩, ⟨"9", "foo", "A", "1.2.3.4", "600"⟩] = "" ∧
      ∀ r ∈ [(⟨"7", "bar", "A", "1.2.3.4", "600"⟩ : Record), ⟨"9", "foo", "A", "1.2.3.4", "600"⟩],
        ¬(r.«Type» = "A" ∧ r.Content = "1.2.3.4" ∧ r.Name = "foo")) ∨
    (∃ pre r post,
      [(⟨"7", "bar", "A", "1.2.3.4", "600"⟩ : Record), ⟨"9", "foo", "A", "1.2.3.4", "600"⟩] =
          pre ++ r :: post ∧
      r.«Type» = "A" ∧ r.Content = "1.2.3.4" ∧ r.Name = "foo" ∧
      (∀ q ∈ pre, ¬(q.«Type» = "A" ∧ q.Content = "1.2.3.4" ∧ q.Name = "foo")) ∧
      getIDforRecord "foo" "1.2.3.4" "A"
          [⟨"7", "bar", "A", "1.2.3.4", "600"⟩, ⟨"9", "foo", "A", "1.2.3.4", "600"⟩] = r.ID ∧
      r.ID ∈ [(⟨"7", "bar", "A", "1.2.3.4", "600"⟩ : Record),
          ⟨"9", "foo", "A", "1.2.3.4", "600"⟩].map Record.ID) :=
  id_resolver_first_exact_match "foo" "1.2.3.4" "A"
    [⟨"7", "bar", "A", "1.2.3.4", "600"⟩, ⟨"9", "foo", "A", "1.2.3.4", "600"⟩]

/-- C10: the create path never reads or parses a record's ID: it issues one
create call per record in list order (a prefix of the list when an early call
is rejected, the whole list on success), succeeds iff the registrar accepts
every record, and its only error is the create-rejection error — never the
ID-parse error of the update and delete paths. -/
theorem create_path_ignores_record_ids (cl : Client) (zone : String) (rs : List Record) :
    ((CreateDnsRecords cl zone rs).2 = none ↔ ∀ r ∈ rs, cl.createOk zone r = true) ∧
    (∀ e, (CreateDnsRecords cl zone rs).2 = some e → e = "unable to create record") ∧
    (∃ k, k ≤ rs.length ∧
      (CreateDnsRecords cl zone rs).1 = (rs.take k).map (ApiCall.createRecord zone) ∧
      ((∀ r ∈ rs, cl.createOk zone r = true) → k = rs.length)) := by
  induction rs with
  | nil =>
    exact ⟨by simp [CreateDnsRecords], by simp [CreateDnsRecords],
      0, Nat.le_refl 0, by simp [CreateDnsRecords], by simp⟩
  | cons a rest ih =>
    by_cases h : cl.createOk zone a = true
    · obtain ⟨ih1, ih2, k, hk, htr, hfull⟩ := ih
      refine ⟨?_, ?_, k + 1, by simpa using hk, ?_, ?_⟩
      · simp [CreateDnsRecords, h, ih1]
      · intro e he
        simp only [CreateDnsRecords, if_pos h] at he
        exact ih2 e he
      · simp [CreateDnsRecords, if_pos h, List.take_succ_cons, htr]
      · intro hall
        have : k = rest.length := hfull fun r hr => hall r (List.mem_cons_of_mem a hr)
        simp [this]
    · refine ⟨?_, ?_, 1, by simp, ?_, ?_⟩
      · simp [CreateDnsRecords, h]
      · intro e he
        simp only [CreateDnsRecords, if_neg h] at he
        exact (Option.some_inj.mp he).symm
      · simp [CreateDnsRecords, if_neg h]
      · intro hall
        exact absurd (hall a (List.mem_cons_self a rest)) h

/-- Witness for `create_path_ignores_record_ids` on records with empty IDs. -/
theorem create_path_ignores_record_ids_witness :
    ((CreateDnsRecords okClient "a.com" [⟨"", "x", "A", "1.2.3.4", ""⟩]).2 = none ↔
      ∀ r ∈ [(⟨"", "x", "A", "1.2.3.4", ""⟩ : Record)], okClient.createOk "a.com" r = true) ∧
    (∀ e, (CreateDnsRecords okClient "a.com" [⟨"", "x", "A", "1.2.3.4", ""⟩]).2 = some e →
      e = "unable to create record") ∧
    (∃ k, k ≤ [(⟨"", "x", "A", "1.2.3.4", ""⟩ : Record)].length ∧
      (CreateDnsRecords okClient "a.com" [⟨"", "x", "A", "1.2.3.4", ""⟩]).1 =
        ([(⟨"", "x", "A", "1.2.3.4", ""⟩ : Record)].take k).map (ApiCall.createRecord "a.com") ∧
      ((∀ r ∈ [(⟨"", "x", "A", "1.2.3.4", ""⟩ : Record)], okClient.createOk "a.com" r = true) →
        k = [(⟨"", "x", "A", "1.2.3.4", ""⟩ : Record)].length)) :=
  create_path_ignores_record_ids okClient "a.com" [⟨"", "x", "A", "1.2.3.4", ""⟩]


/-- Monotonicity of the `endpointZoneName` fold: the accumulator's length never
decreases. -/
lemma zoneFold_len_mono (ep : Endpoint) (zones : List String) (acc : String) :
    acc.length ≤ (zones.foldl
      (fun matchZoneName zoneName =>
        if goHasSuffix ep.DNSName zoneName && zoneName.length > matchZoneName.length
        then zoneName else matchZoneName) acc).length := by
  induction zones generalizing acc with
  | nil => exact Nat.le_refl _
  | cons z zs ih =>
    simp only [List.foldl_cons]
    by_cases h : (goHasSuffix ep.DNSName z && decide (z.length > acc.length)) = true
    · rw [if_pos h]
      have h2 : acc.length < z.length := of_decide_eq_true ((Bool.and_eq_true _ _).mp h).2
      exact Nat.le_trans (Nat.le_of_lt h2) (ih z)
    · rw [if_neg h]
      exact ih acc

/-- Every matching zone in the remaining list is at most as long as the fold
result. -/
lemma zoneFold_max (ep : Endpoint) (zones : List String) :
    ∀ (acc y : String), y ∈ zones → goHasSuffix ep.DNSName y = true →
      y.length ≤ (zones.foldl
        (fun matchZoneName zoneName =>
          if goHasSuffix ep.DNSName zoneName && zoneName.length > matchZoneName.length
          then zoneName else matchZoneName) acc).length := by
  induction zones with
  | nil =>
    intro acc y hy _
    exact absurd hy (List.not_mem_nil y)
  | cons z zs ih =>
    intro acc y hy hsuf
    simp only [List.foldl_cons]
    rcases List.mem_cons.mp hy with h | h
    · subst h
      by_cases hc : (goHasSuffix ep.DNSName y && decide (y.length > acc.length)) = true
      · rw [if_pos hc]
        exact zoneFold_len_mono ep zs y
      · rw [if_neg hc]
        have hle : ¬(y.length > acc.length) := by
          intro hgt
          exact hc (by simp [hsuf, hgt])
        exact Nat.le_trans (Nat.le_of_not_lt hle) (zoneFold_len_mono ep zs acc)
    · exact ih _ y h hsuf

/-- The fold result is the accumulator or a matching member of the list. -/
lemma zoneFold_mem (ep : Endpoint) (zones : List String) (acc : String) :
    (zones.foldl
      (fun matchZoneName zoneName =>
        if goHasSuffix ep.DNSName zoneName && zoneName.length > matchZoneName.length
        then zoneName else matchZoneName) acc) = acc ∨
    ((zones.foldl
      (fun matchZoneName zoneName =>
        if goHasSuffix ep.DNSName zoneName && zoneName.length > matchZoneName.length
        then zoneName else matchZoneName) acc) ∈ zones ∧
      goHasSuffix ep.DNSName (zones.foldl
        (fun matchZoneName zoneName =>
          if goHasSuffix ep.DNSName zoneName && zoneName.length > matchZoneName.length
          then zoneName else matchZoneName) acc) = true) := by
  induction zones generalizing acc with
  | nil => exact Or.inl rfl
  | cons z zs ih =>
    simp only [List.foldl_cons]
    by_cases hc : (goHasSuffix ep.DNSName z && decide (z.length > acc.length)) = true
    · rw [if_pos hc]
      rcases ih z with h | ⟨hm, hs⟩
      · exact Or.inr ⟨by rw [h]; exact List.mem_cons_self z zs,
          by rw [h]; exact ((Bool.and_eq_true _ _).mp hc).1⟩
      · exact Or.inr ⟨List.mem_cons_of_mem z hm, hs⟩
    · rw [if_neg hc]
      rcases ih acc with h | ⟨hm, hs⟩
      · exact Or.inl h
      · exact Or.inr ⟨List.mem_cons_of_mem z hm, hs⟩

/-- C2: zone resolution returns the longest configured zone that is a string
suffix of the endpoint name (the result is a matching member of the zone set
unless it is the empty string, and every matching member is at most as long),
returns the empty string when no zone matches, and an endpoint resolving to no
zone is dropped from every zone's batch; determinism is inherent, the resolver
being a pure function of the name and the zone set. -/
theorem zone_resolution_longest_suffix (ep : Endpoint) (zones : List String)
    (changes : Changes) :
    (endpointZoneName ep zones = "" ∨
      (endpointZoneName ep zones ∈ zones ∧
        goHasSuffix ep.DNSName (endpointZoneName ep zones) = true)) ∧
    (∀ y ∈ zones, goHasSuffix ep.DNSName y = true →
      y.length ≤ (endpointZoneName ep zones).length) ∧
    ((∀ y ∈ zones, goHasSuffix ep.DNSName y = false) → endpointZoneName ep zones = "") ∧
    (endpointZoneName ep zones = "" → ∀ z : String,
      ep ∉ (zoneChanges changes zones z).Create ∧
      ep ∉ (zoneChanges changes zones z).UpdateOld ∧
      ep ∉ (zoneChanges changes zones z).UpdateNew ∧
      ep ∉ (zoneChanges changes zones z).Delete) := by
  have hmem := zoneFold_mem ep zones ""
  refine ⟨hmem, ?_, ?_, ?_⟩
  · intro y hy hs
    exact zoneFold_max ep zones "" y hy hs
  · intro hall
    rcases hmem with h | ⟨hm, hs⟩
    · exact h
    · rw [hall _ hm] at hs
      exact absurd hs (by simp)
  · intro hz z
    have hdrop : ∀ l : List Endpoint,
        ep ∉ l.filter (fun e => z != "" && endpointZoneName e zones == z) := by
      intro l hmem2
      obtain ⟨-, hp⟩ := List.mem_filter.mp hmem2
      obtain ⟨h1, h2⟩ := (Bool.and_eq_true _ _).mp hp
      rw [hz] at h2
      exact bne_iff_ne.mp h1 (beq_iff_eq.mp h2).symm
    exact ⟨hdrop changes.Create, hdrop changes.UpdateOld,
      hdrop changes.UpdateNew, hdrop changes.Delete⟩

/-- Witness for `zone_resolution_longest_suffix` on the spec's example zones. -/
theorem zone_resolution_longest_suffix_witness :
    (endpointZoneName ⟨"foo.bar.org", "A", ["1.1.1.1"], 300⟩ ["bar.org", "baz.org"] = "" ∨
      (endpointZoneName ⟨"foo.bar.org", "A", ["1.1.1.1"], 300⟩ ["bar.org", "baz.org"] ∈
          ["bar.org", "baz.org"] ∧
        goHasSuffix "foo.bar.org"
          (endpointZoneName ⟨"foo.bar.org", "A", ["1.1.1.1"], 300⟩ ["bar.org", "baz.org"]) =
          true)) ∧
    (∀ y ∈ ["bar.org", "baz.org"], goHasSuffix "foo.bar.org" y = true →
      y.length ≤
        (endpointZoneName ⟨"foo.bar.org", "A", ["1.1.1.1"], 300⟩ ["bar.org", "baz.org"]).length) ∧
    ((∀ y ∈ ["bar.org", "baz.org"], goHasSuffix "foo.bar.org" y = false) →
      endpointZoneName ⟨"foo.bar.org", "A", ["1.1.1.1"], 300⟩ ["bar.org", "baz.org"] = "") ∧
    (endpointZoneName ⟨"foo.bar.org", "A", ["1.1.1.1"], 300⟩ ["bar.org", "baz.org"] = "" →
      ∀ z : String,
        (⟨"foo.bar.org", "A", ["1.1.1.1"], 300⟩ : Endpoint) ∉
          (zoneChanges chCreate ["bar.org", "baz.org"] z).Create ∧
        (⟨"foo.bar.org", "A", ["1.1.1.1"], 300⟩ : Endpoint) ∉
          (zoneChanges chCreate ["bar.org", "baz.org"] z).UpdateOld ∧
        (⟨"foo.bar.org", "A", ["1.1.1.1"], 300⟩ : Endpoint) ∉
          (zoneChanges chCreate ["bar.org", "baz.org"] z).UpdateNew ∧
        (⟨"foo.bar.org", "A", ["1.1.1.1"], 300⟩ : Endpoint) ∉
          (zoneChanges chCreate ["bar.org", "baz.org"] z).Delete) :=
  zone_resolution_longest_suffix ⟨"foo.bar.org", "A", ["1.1.1.1"], 300⟩
    ["bar.org", "baz.org"] chCreate


/-- Trimming a trailing suffix that is literally appended recovers the stem. -/
lemma goTrimSuffix_concat (rest suffix : String) :
    goTrimSuffix (rest ++ suffix) suffix = rest := by
  have hsuf : goHasSuffix (rest ++ suffix) suffix = true := by
    unfold goHasSuffix
    exact decide_eq_true ⟨rest.data, (String.data_append rest suffix).symm⟩
  unfold goTrimSuffix
  rw [if_pos hsuf]
  apply String.ext
  show ((rest ++ suffix).data.take ((rest ++ suffix).data.length - suffix.data.length)) = rest.data
  rw [String.data_append, List.length_append, Nat.add_sub_cancel, List.take_left]

/-- C4: for an endpoint with a non-empty target list the translator emits one
record whose name is the DNS name with the trailing dot-zone suffix removed
(normalised to the apex sentinel when the remainder equals the zone, and left
unchanged when the dot-zone suffix is absent), whose content is the first
target with the surrounding quote characters trimmed exactly when the type is
TXT and the target opens with the quoted heritage marker, whose type is the
endpoint type, and whose ID is the ID-resolver result on the snapshot. -/
theorem translator_record_shape (recs : List Record) (zone : String) (del : Bool)
    (ep : Endpoint) :
    ∃ r, convertToPorkbunRecord recs [ep] zone del = [r] ∧
      r.«Type» = ep.RecordType ∧
      (∀ rest : String, ep.DNSName = rest ++ "." ++ zone →
        r.Name = if rest = zone then "@" else rest) ∧
      (goHasSuffix ep.DNSName ("." ++ zone) = false →
        r.Name = if ep.DNSName = zone then "@" else ep.DNSName) ∧
      (∀ t ts, ep.Targets = t :: ts →
        r.Content = if ep.RecordType = "TXT" ∧ goStartsWith t "\"heritage=" = true
          then goTrimChar t dquote else t) ∧
      r.ID = getIDforRecord r.Name r.Content ep.RecordType recs := by
  refine ⟨_, rfl, rfl, ?_, ?_, ?_, rfl⟩
  · intro rest hdns
    show (if goTrimSuffix ep.DNSName ("." ++ zone) == zone then "@"
      else goTrimSuffix ep.DNSName ("." ++ zone)) = _
    have htrim : goTrimSuffix ep.DNSName ("." ++ zone) = rest := by
      rw [hdns, String.append_assoc, goTrimSuffix_concat]
    rw [htrim]
    by_cases h : rest = zone
    · simp [h]
    · simp [h]
  · intro hno
    show (if goTrimSuffix ep.DNSName ("." ++ zone) == zone then "@"
      else goTrimSuffix ep.DNSName ("." ++ zone)) = _
    have htrim : goTrimSuffix ep.DNSName ("." ++ zone) = ep.DNSName := by
      unfold goTrimSuffix
      rw [hno]
      simp
    rw [htrim]
    by_cases h : ep.DNSName = zone
    · simp [h]
    · simp [h]
  · intro t ts hts
    show (if ep.RecordType == "TXT" && goStartsWith ep.Targets.headI "\"heritage="
      then goTrimChar ep.Targets.headI dquote else ep.Targets.headI) = _
    rw [hts]
    simp only [List.headI_cons]
    by_cases h1 : ep.RecordType = "TXT"
    · by_cases h2 : goStartsWith t "\"heritage=" = true
      · simp [h1, h2]
      · simp [h1, h2]
    · have : (ep.RecordType == "TXT") = false := by simp [h1]
      simp [this, h1]

/-- Witness for `translator_record_shape` on a quoted heritage TXT endpoint. -/
theorem translator_record_shape_witness :
    ∃ r, convertToPorkbunRecord [] [⟨"foo.bar.org", "TXT", ["\"heritage=a,b,c\""], 300⟩]
        "bar.org" false = [r] ∧
      r.«Type» = (⟨"foo.bar.org", "TXT", ["\"heritage=a,b,c\""], 300⟩ : Endpoint).RecordType ∧
      (∀ rest : String, "foo.bar.org" = rest ++ "." ++ "bar.org" →
        r.Name = if rest = "bar.org" then "@" else rest) ∧
      (goHasSuffix "foo.bar.org" ("." ++ "bar.org") = false →
        r.Name = if "foo.bar.org" = "bar.org" then "@" else "foo.bar.org") ∧
      (∀ t ts, ["\"heritage=a,b,c\""] = t :: ts →
        r.Content = if "TXT" = "TXT" ∧ goStartsWith t "\"heritage=" = true
          then goTrimChar t dquote else t) ∧
      r.ID = getIDforRecord r.Name r.Content "TXT" [] :=
  translator_record_shape [] "bar.org" false ⟨"foo.bar.org", "TXT", ["\"heritage=a,b,c\""], 300⟩


/-- Every call in a sequenced trace comes from one of the two steps. -/
lemma seqStep_trace_sub (a b : List ApiCall × Option String) :
    ∀ x ∈ (seqStep a b).1, x ∈ a.1 ∨ x ∈ b.1 := by
  intro x hx
  rcases h : a.2 with _ | e
  · simp only [seqStep, h] at hx
    exact List.mem_append.mp hx
  · simp only [seqStep, h] at hx
    exact Or.inl hx

/-- A sequence succeeds exactly when both steps succeed. -/
lemma seqStep_none (a b : List ApiCall × Option String) :
    (seqStep a b).2 = none ↔ (a.2 = none ∧ b.2 = none) := by
  rcases h : a.2 with _ | e <;> simp [seqStep, h]

/-- A failing first step short-circuits the sequence. -/
lemma seqStep_err (a b : List ApiCall × Option String) (e : String) (h : a.2 = some e) :
    seqStep a b = (a.1, some e) := by
  simp [seqStep, h]

/-- A succeeding first step concatenates the traces. -/
lemma seqStep_ok (a b : List ApiCall × Option String) (h : a.2 = none) :
    seqStep a b = (a.1 ++ b.1, b.2) := by
  simp [seqStep, h]

/-- Every call issued by the update path is an edit of the given zone. -/
lemma UpdateDnsRecords_calls (cl : Client) (z : String) (rs : List Record) :
    ∀ x ∈ (UpdateDnsRecords cl z rs).1, ∃ i r, x = ApiCall.editRecord z i r := by
  induction rs with
  | nil => simp [UpdateDnsRecords]
  | cons r rest ih =>
    intro x hx
    rcases ha : goAtoi r.ID with _ | i
    · simp [UpdateDnsRecords, ha] at hx
    · by_cases hok : cl.editOk z i r = true
      · simp only [UpdateDnsRecords, ha, if_pos hok, List.mem_cons] at hx
        rcases hx with rfl | hx
        · exact ⟨i, r, rfl⟩
        · exact ih x hx
      · simp only [UpdateDnsRecords, ha, if_neg hok, List.mem_singleton] at hx
        exact ⟨i, r, hx⟩

/-- Every call issued by the delete path is a delete of the given zone. -/
lemma DeleteDnsRecords_calls (cl : Client) (z : String) (rs : List Record) :
    ∀ x ∈ (DeleteDnsRecords cl z rs).1, ∃ i, x = ApiCall.deleteRecord z i := by
  induction rs with
  | nil => simp [DeleteDnsRecords]
  | cons r rest ih =>
    intro x hx
    rcases ha : goAtoi r.ID with _ | i
    · simp [DeleteDnsRecords, ha] at hx
    · by_cases hok : cl.deleteOk z i = true
      · simp only [DeleteDnsRecords, ha, if_pos hok, List.mem_cons] at hx
        rcases hx with rfl | hx
        · exact ⟨i, rfl⟩
        · exact ih x hx
      · simp only [DeleteDnsRecords, ha, if_neg hok, List.mem_singleton] at hx
        exact ⟨i, hx⟩

/-- Every call issued by the create path is a create of the given zone. -/
lemma CreateDnsRecords_calls (cl : Client) (z : String) (rs : List Record) :
    ∀ x ∈ (CreateDnsRecords cl z rs).1, ∃ r, x = ApiCall.createRecord z r := by
  induction rs with
  | nil => simp [CreateDnsRecords]
  | cons r rest ih =>
    intro x hx
    by_cases hok : cl.createOk z r = true
    · simp only [CreateDnsRecords, if_pos hok, List.mem_cons] at hx
      rcases hx with rfl | hx
      · exact ⟨r, rfl⟩
      · exact ih x hx
    · simp only [CreateDnsRecords, if_neg hok, List.mem_singleton] at hx
      exact ⟨r, hx⟩

/-- An update list whose head has an empty ID fails at the ID parse before any
call is issued. -/
lemma UpdateDnsRecords_head_emptyID (cl : Client) (z : String) (r : Record)
    (rs : List Record) (h : r.ID = "") :
    UpdateDnsRecords cl z (r :: rs) = ([], some "unable to parse record ID") := by
  have ha : goAtoi r.ID = none := by rw [h]; rfl
  simp [UpdateDnsRecords, ha]

/-- A delete list whose head has an empty ID fails at the ID parse before any
call is issued. -/
lemma DeleteDnsRecords_head_emptyID (cl : Client) (z : String) (r : Record)
    (rs : List Record) (h : r.ID = "") :
    DeleteDnsRecords cl z (r :: rs) = ([], some "unable to parse record ID") := by
  have ha : goAtoi r.ID = none := by rw [h]; rfl
  simp [DeleteDnsRecords, ha]

/-- A non-empty all-empty-ID update list fails at the ID parse, with no call. -/
lemma UpdateDnsRecords_allEmptyID (cl : Client) (z : String) (rs : List Record)
    (hne : rs ≠ []) (hid : ∀ r ∈ rs, r.ID = "") :
    UpdateDnsRecords cl z rs = ([], some "unable to parse record ID") := by
  obtain ⟨r, rest, rfl⟩ := List.exists_cons_of_ne_nil hne
  exact UpdateDnsRecords_head_emptyID cl z r rest (hid r (List.mem_cons_self r rest))

/-- A non-empty all-empty-ID delete list fails at the ID parse, with no call. -/
lemma DeleteDnsRecords_allEmptyID (cl : Client) (z : String) (rs : List Record)
    (hne : rs ≠ []) (hid : ∀ r ∈ rs, r.ID = "") :
    DeleteDnsRecords cl z rs = ([], some "unable to parse record ID") := by
  obtain ⟨r, rest, rfl⟩ := List.exists_cons_of_ne_nil hne
  exact DeleteDnsRecords_head_emptyID cl z r rest (hid r (List.mem_cons_self r rest))

/-- Against an empty snapshot every translated record has an empty ID. -/
lemma convert_nil_snapshot_ID (eps : List Endpoint) (z : String) (b : Bool) :
    ∀ r ∈ convertToPorkbunRecord [] eps z b, r.ID = "" := by
  intro r hr
  simp only [convertToPorkbunRecord, List.mem_map] at hr
  obtain ⟨ep, -, rfl⟩ := hr
  rfl

/-- The translator maps a non-empty endpoint list to a non-empty record list. -/
lemma convert_ne_nil (recs : List Record) (eps : List Endpoint) (z : String) (b : Bool)
    (h : eps ≠ []) : convertToPorkbunRecord recs eps z b ≠ [] := by
  simpa [convertToPorkbunRecord] using h

/-- C6: a failed snapshot fetch for a zone does not abort the cycle: the zone
is processed against the empty snapshot (the fetch call is still recorded),
every translated record of the zone then carries an empty ID, no edit or
delete call is ever issued for the zone (each fails at the integer parse of
its empty ID before calling the registrar), a non-empty UpdateOld or Delete
list fails immediately with the ID-parse error, any pending update or delete
work makes the zone report an error, and a zone with no pending work still
succeeds. -/
theorem snapshot_fetch_failure_zone (cl : Client) (z : String) (c : Changes)
    (h : cl.retrieve z = none) :
    (applyZone cl z c =
      (ApiCall.retrieveRecords z :: (applyZoneBody cl z [] c).1,
        (applyZoneBody cl z [] c).2)) ∧
    (∀ eps b, ∀ r ∈ convertToPorkbunRecord [] eps z b, r.ID = "") ∧
    (∀ x ∈ (applyZone cl z c).1, isEditCall x = false ∧ isDeleteCall x = false) ∧
    (c.UpdateOld ≠ [] →
      applyZone cl z c = ([ApiCall.retrieveRecords z], some "unable to parse record ID")) ∧
    (c.UpdateOld = [] → c.Delete ≠ [] →
      applyZone cl z c = ([ApiCall.retrieveRecords z], some "unable to parse record ID")) ∧
    ((c.UpdateOld ≠ [] ∨ c.Delete ≠ [] ∨ c.UpdateNew ≠ []) → (applyZone cl z c).2 ≠ none) ∧
    (c.UpdateOld = [] → c.Delete = [] → c.Create = [] → c.UpdateNew = [] →
      applyZone cl z c = ([ApiCall.retrieveRecords z], none)) := by
  have hz : applyZone cl z c =
      (ApiCall.retrieveRecords z :: (applyZoneBody cl z [] c).1,
        (applyZoneBody cl z [] c).2) := by
    simp [applyZone, h]
  have hbdef : applyZoneBody cl z [] c =
      seqStep (UpdateDnsRecords cl z (convertToPorkbunRecord [] c.UpdateOld z true))
        (seqStep (DeleteDnsRecords cl z (convertToPorkbunRecord [] c.Delete z true))
          (seqStep (CreateDnsRecords cl z (convertToPorkbunRecord [] c.Create z false))
            (UpdateDnsRecords cl z (convertToPorkbunRecord [] c.UpdateNew z false)))) := rfl
  have hp1 : (UpdateDnsRecords cl z (convertToPorkbunRecord [] c.UpdateOld z true)).1 = [] := by
    rcases eq_or_ne c.UpdateOld [] with he | hne
    · rw [he]; rfl
    · rw [UpdateDnsRecords_allEmptyID cl z _ (convert_ne_nil [] c.UpdateOld z true hne)
        (convert_nil_snapshot_ID c.UpdateOld z true)]
  have hp2 : (DeleteDnsRecords cl z (convertToPorkbunRecord [] c.Delete z true)).1 = [] := by
    rcases eq_or_ne c.Delete [] with he | hne
    · rw [he]; rfl
    · rw [DeleteDnsRecords_allEmptyID cl z _ (convert_ne_nil [] c.Delete z true hne)
        (convert_nil_snapshot_ID c.Delete z true)]
  have hp4 : (UpdateDnsRecords cl z (convertToPorkbunRecord [] c.UpdateNew z false)).1 = [] := by
    rcases eq_or_ne c.UpdateNew [] with he | hne
    · rw [he]; rfl
    · rw [UpdateDnsRecords_allEmptyID cl z _ (convert_ne_nil [] c.UpdateNew z false hne)
        (convert_nil_snapshot_ID c.UpdateNew z false)]
  have hcall3 : ∀ x ∈ (applyZone cl z c).1, isEditCall x = false ∧ isDeleteCall x = false := by
    intro x hx
    rw [hz] at hx
    rcases List.mem_cons.mp hx with rfl | hx
    · exact ⟨rfl, rfl⟩
    rw [hbdef] at hx
    rcases seqStep_trace_sub _ _ x hx with h1 | hx
    · rw [hp1] at h1
      exact absurd h1 (List.not_mem_nil x)
    rcases seqStep_trace_sub _ _ x hx with h2 | hx
    · rw [hp2] at h2
      exact absurd h2 (List.not_mem_nil x)
    rcases seqStep_trace_sub _ _ x hx with h3 | hx
    · obtain ⟨r, rfl⟩ := CreateDnsRecords_calls cl z _ x h3
      exact ⟨rfl, rfl⟩
    · rw [hp4] at hx
      exact absurd hx (List.not_mem_nil x)
  have h4 : c.UpdateOld ≠ [] →
      applyZone cl z c = ([ApiCall.retrieveRecords z], some "unable to parse record ID") := by
    intro hne
    have hu : UpdateDnsRecords cl z (convertToPorkbunRecord [] c.UpdateOld z true) =
        ([], some "unable to parse record ID") :=
      UpdateDnsRecords_allEmptyID cl z _ (convert_ne_nil [] c.UpdateOld z true hne)
        (convert_nil_snapshot_ID c.UpdateOld z true)
    have hb : applyZoneBody cl z [] c = ([], some "unable to parse record ID") := by
      rw [hbdef, hu]
      rfl
    rw [hz, hb]
  have h5 : c.UpdateOld = [] → c.Delete ≠ [] →
      applyZone cl z c = ([ApiCall.retrieveRecords z], some "unable to parse record ID") := by
    intro heo hne
    have hu : UpdateDnsRecords cl z (convertToPorkbunRecord [] c.UpdateOld z true) =
        ([], none) := by
      rw [heo]; rfl
    have hd : DeleteDnsRecords cl z (convertToPorkbunRecord [] c.Delete z true) =
        ([], some "unable to parse record ID") :=
      DeleteDnsRecords_allEmptyID cl z _ (convert_ne_nil [] c.Delete z true hne)
        (convert_nil_snapshot_ID c.Delete z true)
    have hb : applyZoneBody cl z [] c = ([], some "unable to parse record ID") := by
      rw [hbdef, hu, hd]
      rfl
    rw [hz, hb]
  refine ⟨hz, fun eps b => convert_nil_snapshot_ID eps z b, hcall3, h4, h5, ?_, ?_⟩
  · intro hor hnone
    rw [hz] at hnone
    by_cases heo : c.UpdateOld = []
    · by_cases hed : c.Delete = []
      · have hun : c.UpdateNew ≠ [] := by
          rcases hor with h | h | h
          · exact absurd heo h
          · exact absurd hed h
          · exact h
        rw [hbdef] at hnone
        obtain ⟨-, hnone⟩ := (seqStep_none _ _).mp hnone
        obtain ⟨-, hnone⟩ := (seqStep_none _ _).mp hnone
        obtain ⟨-, hnone⟩ := (seqStep_none _ _).mp hnone
        have hu4 : UpdateDnsRecords cl z (convertToPorkbunRecord [] c.UpdateNew z false) =
            ([], some "unable to parse record ID") :=
          UpdateDnsRecords_allEmptyID cl z _ (convert_ne_nil [] c.UpdateNew z false hun)
            (convert_nil_snapshot_ID c.UpdateNew z false)
        rw [hu4] at hnone
        exact Option.noConfusion hnone
      · have := h5 heo hed
        rw [hz] at this
        have h2 := congrArg Prod.snd this
        simp only at h2
        rw [h2] at hnone
        exact Option.noConfusion hnone
    · have := h4 heo
      rw [hz] at this
      have h2 := congrArg Prod.snd this
      simp only at h2
      rw [h2] at hnone
      exact Option.noConfusion hnone
  · intro h1 h2 h3 h4'
    have hb : applyZoneBody cl z [] c = ([], none) := by
      rw [hbdef, h1, h2, h3, h4']
      rfl
    rw [hz, hb]
/-- A registrar whose snapshot fetches always fail. -/
def badFetchClient : Client :=
  ⟨true, fun _ => none, fun _ _ => true, fun _ _ _ => true, fun _ _ => true⟩

/-- Witness for `snapshot_fetch_failure_zone`: zone `a.com`, one pending
delete, registrar whose fetches fail. -/
theorem snapshot_fetch_failure_zone_witness :
    (applyZone badFetchClient "a.com" chDelete =
      (ApiCall.retrieveRecords "a.com" :: (applyZoneBody badFetchClient "a.com" [] chDelete).1,
        (applyZoneBody badFetchClient "a.com" [] chDelete).2)) ∧
    (∀ eps b, ∀ r ∈ convertToPorkbunRecord [] eps "a.com" b, r.ID = "") ∧
    (∀ x ∈ (applyZone badFetchClient "a.com" chDelete).1,
      isEditCall x = false ∧ isDeleteCall x = false) ∧
    (chDelete.UpdateOld ≠ [] →
      applyZone badFetchClient "a.com" chDelete =
        ([ApiCall.retrieveRecords "a.com"], some "unable to parse record ID")) ∧
    (chDelete.UpdateOld = [] → chDelete.Delete ≠ [] →
      applyZone badFetchClient "a.com" chDelete =
        ([ApiCall.retrieveRecords "a.com"], some "unable to parse record ID")) ∧
    ((chDelete.UpdateOld ≠ [] ∨ chDelete.Delete ≠ [] ∨ chDelete.UpdateNew ≠ []) →
      (applyZone badFetchClient "a.com" chDelete).2 ≠ none) ∧
    (chDelete.UpdateOld = [] → chDelete.Delete = [] → chDelete.Create = [] →
      chDelete.UpdateNew = [] →
      applyZone badFetchClient "a.com" chDelete = ([ApiCall.retrieveRecords "a.com"], none)) :=
  snapshot_fetch_failure_zone badFetchClient "a.com" chDelete rfl

/-- When every zone before `z` succeeds and `z` fails, the per-zone loop stops
at `z`: earlier traces are kept as issued, `z` contributes its partial trace,
and later zones contribute nothing. -/
lemma applyZones_abort (cl : Client) (changes : Changes) (A : List String)
    (zs1 : List String) (z : String) (zs2 : List String) (e : String)
    (h1 : ∀ z' ∈ zs1, (applyZone cl z' (zoneChanges changes A z')).2 = none)
    (h2 : (applyZone cl z (zoneChanges changes A z)).2 = some e) :
    applyZones cl (zs1 ++ z :: zs2) changes A =
      ((zs1.map (fun z' => (applyZone cl z' (zoneChanges changes A z')).1)).join
        ++ (applyZone cl z (zoneChanges changes A z)).1, some e) := by
  induction zs1 with
  | nil =>
    show seqStep _ _ = _
    rw [seqStep_err _ _ e h2]
    simp
  | cons a rest ih =>
    have ha := h1 a (List.mem_cons_self a rest)
    rw [List.cons_append]
    show seqStep _ _ = _
    rw [seqStep_ok _ _ ha]
    rw [ih (fun z' hz' => h1 z' (List.mem_cons_of_mem a hz'))]
    simp

/-- C5: if in a non-dry-run cycle every zone before `z` applies cleanly and a
mutation of zone `z` fails (including an ID-parse failure), the cycle returns
that error at once: the trace consists of the login ping, the earlier zones'
calls exactly as issued (nothing is rolled back), and `z`'s calls up to the
failure — the remaining zones contribute no call at all. -/
theorem mutation_failure_aborts_cycle (p : Provider) (cl : Client) (changes : Changes)
    (zs1 : List String) (z : String) (zs2 : List String) (e : String)
    (hf : p.filters = zs1 ++ z :: zs2)
    (hdry : p.dryRun = false)
    (hch : hasChanges changes = true)
    (hping : cl.pingOk = true)
    (h1 : ∀ z' ∈ zs1, (applyZone cl z' (zoneChanges changes p.filters z')).2 = none)
    (h2 : (applyZone cl z (zoneChanges changes p.filters z)).2 = some e) :
    ApplyChanges p cl changes =
      (ApiCall.ping ::
        ((zs1.map (fun z' => (applyZone cl z' (zoneChanges changes p.filters z')).1)).join
          ++ (applyZone cl z (zoneChanges changes p.filters z)).1), some e) := by
  have hmain : ApplyChanges p cl changes =
      (ApiCall.ping :: (applyZones cl p.filters changes p.filters).1,
        (applyZones cl p.filters changes p.filters).2) := by
    simp [ApplyChanges, hch, hdry, hping]
  rw [hf] at h1 h2
  rw [hmain, hf, applyZones_abort cl changes (zs1 ++ z :: zs2) zs1 z zs2 e h1 h2]

/-- Witness for `mutation_failure_aborts_cycle`: the delete of `epDel` fails to
parse its empty ID in zone `a.com`; zone `b.com` is never touched. -/
theorem mutation_failure_aborts_cycle_witness :
    ApplyChanges provAB okClient chDelete =
      (ApiCall.ping ::
        ((([] : List String).map
            (fun z' => (applyZone okClient z' (zoneChanges chDelete provAB.filters z')).1)).join
          ++ (applyZone okClient "a.com" (zoneChanges chDelete provAB.filters "a.com")).1),
        some "unable to parse record ID") :=
  mutation_failure_aborts_cycle provAB okClient chDelete [] "a.com" ["b.com"]
    "unable to parse record ID" rfl rfl rfl rfl (by simp) rfl

/-- The trace of a sequence is the first trace alone (on failure) or the two
traces in order. -/
lemma seqStep_trace (a b : List ApiCall × Option String) :
    (seqStep a b).1 = a.1 ∨ (seqStep a b).1 = a.1 ++ b.1 := by
  rcases h : a.2 with _ | e <;> simp [seqStep, h]

/-- The mutation-phase trace of a zone decomposes as UpdateOld edits, then
deletes, then creates, then UpdateNew edits; later blocks are empty when an
earlier block aborted the zone. -/
lemma applyZoneBody_decomp (cl : Client) (z : String) (recs : List Record) (c : Changes) :
    ∃ e1 d cr e2,
      (applyZoneBody cl z recs c).1 = e1 ++ d ++ cr ++ e2 ∧
      e1 = (UpdateDnsRecords cl z (convertToPorkbunRecord recs c.UpdateOld z true)).1 ∧
      (d = [] ∨ d = (DeleteDnsRecords cl z (convertToPorkbunRecord recs c.Delete z true)).1) ∧
      (cr = [] ∨ cr = (CreateDnsRecords cl z (convertToPorkbunRecord recs c.Create z false)).1) ∧
      (e2 = [] ∨ e2 = (UpdateDnsRecords cl z (convertToPorkbunRecord recs c.UpdateNew z false)).1) := by
  have hbdef : applyZoneBody cl z recs c =
      seqStep (UpdateDnsRecords cl z (convertToPorkbunRecord recs c.UpdateOld z true))
        (seqStep (DeleteDnsRecords cl z (convertToPorkbunRecord recs c.Delete z true))
          (seqStep (CreateDnsRecords cl z (convertToPorkbunRecord recs c.Create z false))
            (UpdateDnsRecords cl z (convertToPorkbunRecord recs c.UpdateNew z false)))) := rfl
  rw [hbdef]
  rcases seqStep_trace (UpdateDnsRecords cl z (convertToPorkbunRecord recs c.UpdateOld z true))
      (seqStep (DeleteDnsRecords cl z (convertToPorkbunRecord recs c.Delete z true))
        (seqStep (CreateDnsRecords cl z (convertToPorkbunRecord recs c.Create z false))
          (UpdateDnsRecords cl z (convertToPorkbunRecord recs c.UpdateNew z false)))) with h1 | h1
  · exact ⟨_, [], [], [], by simp [h1], rfl, Or.inl rfl, Or.inl rfl, Or.inl rfl⟩
  · rcases seqStep_trace (DeleteDnsRecords cl z (convertToPorkbunRecord recs c.Delete z true))
        (seqStep (CreateDnsRecords cl z (convertToPorkbunRecord recs c.Create z false))
          (UpdateDnsRecords cl z (convertToPorkbunRecord recs c.UpdateNew z false))) with h2 | h2
    · exact ⟨_, _, [], [], by simp [h1, h2], rfl, Or.inr rfl, Or.inl rfl, Or.inl rfl⟩
    · rcases seqStep_trace (CreateDnsRecords cl z (convertToPorkbunRecord recs c.Create z false))
          (UpdateDnsRecords cl z (convertToPorkbunRecord recs c.UpdateNew z false)) with h3 | h3
      · exact ⟨_, _, _, [], by simp [h1, h2, h3], rfl, Or.inr rfl, Or.inr rfl, Or.inl rfl⟩
      · exact ⟨_, _, _, _, by simp [h1, h2, h3], rfl, Or.inr rfl, Or.inr rfl, Or.inr rfl⟩

/-- Shape of the trace segment of one processed zone: the snapshot fetch,
then the UpdateOld edit calls, then delete calls, then create calls, then the
UpdateNew edit calls of that same zone, with later blocks possibly cut off by
an abort. -/
def zoneSeg (cl : Client) (changes : Changes) (A : List String) (seg : List ApiCall) : Prop :=
  ∃ z e1 d cr e2,
    seg = ApiCall.retrieveRecords z :: (e1 ++ d ++ cr ++ e2) ∧
    e1 = (UpdateDnsRecords cl z (convertToPorkbunRecord ((cl.retrieve z).getD [])
      (zoneChanges changes A z).UpdateOld z true)).1 ∧
    (d = [] ∨ d = (DeleteDnsRecords cl z (convertToPorkbunRecord ((cl.retrieve z).getD [])
      (zoneChanges changes A z).Delete z true)).1) ∧
    (cr = [] ∨ cr = (CreateDnsRecords cl z (convertToPorkbunRecord ((cl.retrieve z).getD [])
      (zoneChanges changes A z).Create z false)).1) ∧
    (e2 = [] ∨ e2 = (UpdateDnsRecords cl z (convertToPorkbunRecord ((cl.retrieve z).getD [])
      (zoneChanges changes A z).UpdateNew z false)).1) ∧
    (∀ x ∈ e1, ∃ i r, x = ApiCall.editRecord z i r) ∧
    (∀ x ∈ d, ∃ i, x = ApiCall.deleteRecord z i) ∧
    (∀ x ∈ cr, ∃ r, x = ApiCall.createRecord z r) ∧
    (∀ x ∈ e2, ∃ i r, x = ApiCall.editRecord z i r)

/-- Each zone's trace in the per-zone loop has the fixed mutation order. -/
lemma applyZone_seg (cl : Client) (changes : Changes) (A : List String) (z : String) :
    zoneSeg cl changes A (applyZone cl z (zoneChanges changes A z)).1 := by
  have hz : (applyZone cl z (zoneChanges changes A z)).1 =
      ApiCall.retrieveRecords z ::
        (applyZoneBody cl z ((cl.retrieve z).getD []) (zoneChanges changes A z)).1 := rfl
  obtain ⟨e1, d, cr, e2, ht, he1, hd, hcr, he2⟩ :=
    applyZoneBody_decomp cl z ((cl.retrieve z).getD []) (zoneChanges changes A z)
  refine ⟨z, e1, d, cr, e2, by rw [hz, ht], he1, hd, hcr, he2, ?_, ?_, ?_, ?_⟩
  · rw [he1]
    exact UpdateDnsRecords_calls cl z _
  · rcases hd with rfl | rfl
    · simp
    · exact DeleteDnsRecords_calls cl z _
  · rcases hcr with rfl | rfl
    · simp
    · exact CreateDnsRecords_calls cl z _
  · rcases he2 with rfl | rfl
    · simp
    · exact UpdateDnsRecords_calls cl z _

/-- The per-zone loop's trace is the concatenation of per-zone segments, each
with the fixed mutation order. -/
lemma applyZones_segs (cl : Client) (changes : Changes) (A : List String)
    (zones : List String) :
    ∃ segs : List (List ApiCall),
      (applyZones cl zones changes A).1 = segs.join ∧
      ∀ seg ∈ segs, zoneSeg cl changes A seg := by
  induction zones with
  | nil => exact ⟨[], by simp [applyZones], by simp⟩
  | cons z rest ih =>
    obtain ⟨segs, hj, hall⟩ := ih
    rcases hz : (applyZone cl z (zoneChanges changes A z)).2 with _ | e
    · have hstep : applyZones cl (z :: rest) changes A =
          ((applyZone cl z (zoneChanges changes A z)).1 ++ (applyZones cl rest changes A).1,
            (applyZones cl rest changes A).2) := by
        show seqStep _ _ = _
        rw [seqStep_ok _ _ hz]
      refine ⟨(applyZone cl z (zoneChanges changes A z)).1 :: segs, ?_, ?_⟩
      · rw [hstep]
        simp [hj]
      · intro seg hseg
        rcases List.mem_cons.mp hseg with rfl | hseg
        · exact applyZone_seg cl changes A z
        · exact hall seg hseg
    · have hstep : applyZones cl (z :: rest) changes A =
          ((applyZone cl z (zoneChanges changes A z)).1, some e) := by
        show seqStep _ _ = _
        rw [seqStep_err _ _ e hz]
      refine ⟨[(applyZone cl z (zoneChanges changes A z)).1], ?_, ?_⟩
      · rw [hstep]
        simp
      · intro seg hseg
        rw [List.mem_singleton.mp hseg]
        exact applyZone_seg cl changes A z

/-- C1: in a non-dry-run cycle the trace is a possible login ping followed by
one segment per processed zone; inside each segment the mutating calls appear
in the fixed order UpdateOld edits, then deletes, then creates, then UpdateNew
edits — in particular every delete of a zone is issued before any create of
that zone. -/
theorem apply_cycle_mutation_order (p : Provider) (cl : Client) (changes : Changes)
    (hdry : p.dryRun = false) :
    ∃ (pre : List ApiCall) (segs : List (List ApiCall)),
      (ApplyChanges p cl changes).1 = pre ++ segs.join ∧
      (∀ x ∈ pre, x = ApiCall.ping) ∧
      (∀ seg ∈ segs, zoneSeg cl changes p.filters seg) := by
  by_cases hch : hasChanges changes = false
  · exact ⟨[], [], by simp [ApplyChanges, hch], by simp, by simp⟩
  · by_cases hping : cl.pingOk = false
    · refine ⟨[ApiCall.ping], [], ?_, by simp, by simp⟩
      simp [ApplyChanges, hch, hdry, hping]
    · obtain ⟨segs, hj, hall⟩ := applyZones_segs cl changes p.filters p.filters
      refine ⟨[ApiCall.ping], segs, ?_, by simp, hall⟩
      have hmain : (ApplyChanges p cl changes).1 =
          ApiCall.ping :: (applyZones cl p.filters changes p.filters).1 := by
        simp [ApplyChanges, hch, hdry, hping]
      rw [hmain, hj]
      simp

/-- Witness for `apply_cycle_mutation_order` on a one-create batch. -/
theorem apply_cycle_mutation_order_witness :
    ∃ (pre : List ApiCall) (segs : List (List ApiCall)),
      (ApplyChanges provAB okClient chCreate).1 = pre ++ segs.join ∧
      (∀ x ∈ pre, x = ApiCall.ping) ∧
      (∀ seg ∈ segs, zoneSeg okClient chCreate provAB.filters seg) :=
  apply_cycle_mutation_order provAB okClient chCreate rfl

/-- C7 counterexample: in the batch `chCreate` no endpoint routes to zone
`b.com`, so `b.com`'s ZoneChangeBatch is empty, yet the cycle still issues a
registrar call for `b.com` — its snapshot fetch.  The claim that a zone with
no routed endpoint triggers no registrar call at all is therefore false. -/
theorem snapshot_fetch_empty_zone_counterexample :
    ApiCall.retrieveRecords "b.com" ∈ (ApplyChanges provAB okClient chCreate).1 ∧
    (∀ ep ∈ chCreate.Create ++ chCreate.UpdateOld ++ chCreate.UpdateNew ++ chCreate.Delete,
      endpointZoneName ep provAB.filters ≠ "b.com") := by
  refine ⟨?_, ?_⟩ <;> decide

/-- Every call of one zone iteration is the snapshot fetch or a mutation of
that same zone. -/
lemma applyZone_calls_zone (cl : Client) (z' : String) (c : Changes) :
    ∀ x ∈ (applyZone cl z' c).1, x = ApiCall.retrieveRecords z' ∨
      (∃ i r, x = ApiCall.editRecord z' i r) ∨ (∃ i, x = ApiCall.deleteRecord z' i) ∨
      (∃ r, x = ApiCall.createRecord z' r) := by
  intro x hx
  have hz : (applyZone cl z' c).1 = ApiCall.retrieveRecords z' ::
      (applyZoneBody cl z' ((cl.retrieve z').getD []) c).1 := rfl
  rw [hz] at hx
  rcases List.mem_cons.mp hx with rfl | hx
  · exact Or.inl rfl
  obtain ⟨e1, d, cr, e2, ht, he1, hd, hcr, he2⟩ :=
    applyZoneBody_decomp cl z' ((cl.retrieve z').getD []) c
  rw [ht] at hx
  rcases List.mem_append.mp hx with hx | hx
  · rcases List.mem_append.mp hx with hx | hx
    · rcases List.mem_append.mp hx with hx | hx
      · rw [he1] at hx
        exact Or.inr (Or.inl (UpdateDnsRecords_calls cl z' _ x hx))
      · rcases hd with rfl | rfl
        · exact absurd hx (List.not_mem_nil x)
        · exact Or.inr (Or.inr (Or.inl (DeleteDnsRecords_calls cl z' _ x hx)))
    · rcases hcr with rfl | rfl
      · exact absurd hx (List.not_mem_nil x)
      · exact Or.inr (Or.inr (Or.inr (CreateDnsRecords_calls cl z' _ x hx)))
  · rcases he2 with rfl | rfl
    · exact absurd hx (List.not_mem_nil x)
    · exact Or.inr (Or.inl (UpdateDnsRecords_calls cl z' _ x hx))

/-- The mutation phase never fetches the zone's snapshot again. -/
lemma applyZoneBody_no_self_retrieve (cl : Client) (z' : String) (c : Changes)
    (hmem : ApiCall.retrieveRecords z' ∈
      (applyZoneBody cl z' ((cl.retrieve z').getD []) c).1) : False := by
  obtain ⟨e1, d, cr, e2, ht, he1, hd, hcr, he2⟩ :=
    applyZoneBody_decomp cl z' ((cl.retrieve z').getD []) c
  rw [ht] at hmem
  rcases List.mem_append.mp hmem with hx | hx
  · rcases List.mem_append.mp hx with hx | hx
    · rcases List.mem_append.mp hx with hx | hx
      · rw [he1] at hx
        obtain ⟨i, r, h⟩ := UpdateDnsRecords_calls cl z' _ _ hx
        exact ApiCall.noConfusion h
      · rcases hd with rfl | rfl
        · exact absurd hx (List.not_mem_nil _)
        · obtain ⟨i, h⟩ := DeleteDnsRecords_calls cl z' _ _ hx
          exact ApiCall.noConfusion h
    · rcases hcr with rfl | rfl
      · exact absurd hx (List.not_mem_nil _)
      · obtain ⟨r, h⟩ := CreateDnsRecords_calls cl z' _ _ hx
        exact ApiCall.noConfusion h
  · rcases he2 with rfl | rfl
    · exact absurd hx (List.not_mem_nil _)
    · obtain ⟨i, r, h⟩ := UpdateDnsRecords_calls cl z' _ _ hx
      exact ApiCall.noConfusion h

/-- One zone iteration records exactly one snapshot fetch for its own zone and
none for any other zone. -/
lemma applyZone_count_retrieve (cl : Client) (z' : String) (c : Changes) (z : String) :
    (applyZone cl z' c).1.count (ApiCall.retrieveRecords z) = if z' = z then 1 else 0 := by
  have hz : (applyZone cl z' c).1 = ApiCall.retrieveRecords z' ::
      (applyZoneBody cl z' ((cl.retrieve z').getD []) c).1 := rfl
  have hbody : (applyZoneBody cl z' ((cl.retrieve z').getD []) c).1.count
      (ApiCall.retrieveRecords z) = 0 := by
    rw [List.count_eq_zero]
    intro hmem
    have hshape := applyZone_calls_zone cl z' c (ApiCall.retrieveRecords z)
      (by rw [hz]; exact List.mem_cons_of_mem _ hmem)
    rcases hshape with h | ⟨i, r, h⟩ | ⟨i, h⟩ | ⟨r, h⟩
    · injection h with h2
      rw [h2] at hmem
      exact applyZoneBody_no_self_retrieve cl z' c hmem
    · exact ApiCall.noConfusion h
    · exact ApiCall.noConfusion h
    · exact ApiCall.noConfusion h
  rw [hz, List.count_cons, hbody]
  by_cases h : z' = z
  · subst h
    simp
  · have hne : (ApiCall.retrieveRecords z == ApiCall.retrieveRecords z') = false := by
      simp only [beq_eq_false_iff_ne, ne_eq, ApiCall.retrieveRecords.injEq]
      exact fun hh => h hh.symm
    simp [hne]


/-- On a fully successful per-zone loop, the snapshot of each zone is fetched
once per occurrence of the zone in the processed list. -/
lemma applyZones_count_retrieve (cl : Client) (changes : Changes) (A : List String)
    (zones : List String) (hok : (applyZones cl zones changes A).2 = none) (z : String) :
    (applyZones cl zones changes A).1.count (ApiCall.retrieveRecords z) = zones.count z := by
  induction zones with
  | nil => simp [applyZones]
  | cons z' rest ih =>
    have hd : applyZones cl (z' :: rest) changes A =
        seqStep (applyZone cl z' (zoneChanges changes A z'))
          (applyZones cl rest changes A) := rfl
    rw [hd] at hok
    obtain ⟨hp, hq⟩ := (seqStep_none _ _).mp hok
    rw [hd, seqStep_ok _ _ hp]
    show ((applyZone cl z' (zoneChanges changes A z')).1 ++
        (applyZones cl rest changes A).1).count (ApiCall.retrieveRecords z) = _
    rw [List.count_append, applyZone_count_retrieve, ih hq, List.count_cons]
    by_cases h : z' = z
    · subst h
      simp [Nat.add_comm]
    · have hb : (z == z') = false := by
        simp only [beq_eq_false_iff_ne, ne_eq]
        exact fun hh => h hh.symm
      simp [h, hb]

/-- A zone whose ZoneChangeBatch is empty receives no mutating call from the
per-zone loop, whatever happens to the other zones. -/
lemma applyZones_mut_count (cl : Client) (changes : Changes) (A : List String)
    (zones : List String) (z : String) (hz : zoneChanges changes A z = ({} : Changes)) :
    (applyZones cl zones changes A).1.countP (isMutationOfZone z) = 0 := by
  induction zones with
  | nil => simp [applyZones]
  | cons z' rest ih =>
    have hd : applyZones cl (z' :: rest) changes A =
        seqStep (applyZone cl z' (zoneChanges changes A z'))
          (applyZones cl rest changes A) := rfl
    rw [hd]
    have hzone : (applyZone cl z' (zoneChanges changes A z')).1.countP
        (isMutationOfZone z) = 0 := by
      by_cases hzz : z' = z
      · subst hzz
        rw [hz]
        rfl
      · rw [List.countP_eq_zero]
        intro x hx
        rcases applyZone_calls_zone cl z' _ x hx with rfl | ⟨i, r, rfl⟩ | ⟨i, rfl⟩ | ⟨r, rfl⟩
        · simp [isMutationOfZone]
        · simp [isMutationOfZone, hzz]
        · simp [isMutationOfZone, hzz]
        · simp [isMutationOfZone, hzz]
    rcases seqStep_trace (applyZone cl z' (zoneChanges changes A z'))
        (applyZones cl rest changes A) with h | h
    · rw [h, hzone]
    · rw [h, List.countP_append, hzone, ih]

/-- C7 (amended): during a successful non-dry-run apply cycle the snapshot of
every configured zone is fetched exactly once — including zones to which no
endpoint was routed — and a zone whose ZoneChangeBatch is empty receives no
mutating registrar call (only its snapshot fetch). -/
theorem snapshot_fetch_once_per_zone (p : Provider) (cl : Client) (changes : Changes)
    (hdry : p.dryRun = false) (hch : hasChanges changes = true) (hping : cl.pingOk = true)
    (hok : (ApplyChanges p cl changes).2 = none) :
    (∀ z : String, (ApplyChanges p cl changes).1.count (ApiCall.retrieveRecords z) =
      p.filters.count z) ∧
    (∀ z : String, zoneChanges changes p.filters z = ({} : Changes) →
      (ApplyChanges p cl changes).1.countP (isMutationOfZone z) = 0) := by
  have hch2 : ¬ hasChanges changes = false := by simp [hch]
  have hping2 : ¬ cl.pingOk = false := by simp [hping]
  have hmain : ApplyChanges p cl changes =
      (ApiCall.ping :: (applyZones cl p.filters changes p.filters).1,
        (applyZones cl p.filters changes p.filters).2) := by
    simp [ApplyChanges, hch2, hdry, hping2]
  have hok2 : (applyZones cl p.filters changes p.filters).2 = none := by
    rw [hmain] at hok
    exact hok
  constructor
  · intro z
    rw [hmain]
    show (ApiCall.ping :: (applyZones cl p.filters changes p.filters).1).count
      (ApiCall.retrieveRecords z) = _
    rw [List.count_cons, applyZones_count_retrieve cl changes p.filters p.filters hok2 z]
    simp
  · intro z hz
    rw [hmain]
    show (ApiCall.ping :: (applyZones cl p.filters changes p.filters).1).countP
      (isMutationOfZone z) = 0
    rw [List.countP_cons, applyZones_mut_count cl changes p.filters p.filters z hz]
    rfl

/-- Witness for `snapshot_fetch_once_per_zone` on a batch touching only
`a.com`. -/
theorem snapshot_fetch_once_per_zone_witness :
    (∀ z : String, (ApplyChanges provAB okClient chCreate).1.count
      (ApiCall.retrieveRecords z) = provAB.filters.count z) ∧
    (∀ z : String, zoneChanges chCreate provAB.filters z = ({} : Changes) →
      (ApplyChanges provAB okClient chCreate).1.countP (isMutationOfZone z) = 0) :=
  snapshot_fetch_once_per_zone provAB okClient chCreate rfl rfl rfl rfl

end Porkbun
